import Mathlib

/-!
Verification development for the opencrab agent core.

Strings are embedded as `List Char`; machine byte counts as `Nat` with
explicit `% 2^64` where usize wrap-around matters.  Functions present in
the repository sources (`extract_text_from_response`, `split_message`)
are translated directly from the Rust; the tool-loop controller and
stream reconstructor, whose implementation files are not part of the
provided sources, are modelled from the specification (each such
definition says so in its doc comment).
-/

namespace OpenCrab

/-- Modelled from the spec: the structured JSON values (serde_json `Value`)
that tool inputs parse into.  Floats are not modelled; numeric literals are
integers. -/
inductive Json where
  | null
  | bool (b : Bool)
  | num (n : Int)
  | str (s : List Char)
  | arr (elems : List Json)
  | obj (fields : List (List Char × Json))

/-- JSON insignificant whitespace skipping. -/
def skipWs : List Char → List Char
  | [] => []
  | c :: cs => if c = ' ' ∨ c = '\t' ∨ c = '\n' ∨ c = '\r' then skipWs cs else c :: cs

/-- Parse the body of a JSON string after the opening quote.  Escape
sequences are not modelled: a backslash makes the parse fail (which the
reconstructor treats as a parse failure, per the spec's policy). -/
def parseStr : List Char → Option (List Char × List Char)
  | [] => none
  | c :: cs =>
    if c = '"' then some ([], cs)
    else if c = '\\' then none
    else (parseStr cs).map (fun p => (c :: p.1, p.2))

/-- Consume a maximal run of ASCII digits. -/
def takeDigits : List Char → List Char × List Char
  | [] => ([], [])
  | c :: cs =>
    if c.isDigit then
      let p := takeDigits cs
      (c :: p.1, p.2)
    else ([], c :: cs)

/-- Digits to a natural number, most significant first. -/
def digitsToNat (ds : List Char) : Nat :=
  ds.foldl (fun n c => n * 10 + (c.toNat - 48)) 0

/-- Parse a JSON integer literal. -/
def parseNum : List Char → Option (Json × List Char)
  | '-' :: cs =>
    match takeDigits cs with
    | ([], _) => none
    | (ds, rest) => some (Json.num (-(digitsToNat ds : Int)), rest)
  | input =>
    match takeDigits input with
    | ([], _) => none
    | (ds, rest) => some (Json.num (digitsToNat ds), rest)

mutual

/-- Modelled from the spec: serde_json-style parsing of one JSON value,
fuel-bounded (the fuel only limits nesting depth). -/
def parseVal : Nat → List Char → Option (Json × List Char)
  | 0, _ => none
  | f + 1, input =>
    match skipWs input with
    | [] => none
    | '"' :: cs => (parseStr cs).map (fun p => (Json.str p.1, p.2))
    | '\x7b' :: cs =>
      match skipWs cs with
      | '\x7d' :: rest => some (Json.obj [], rest)
      | other => (parseFields f other).map (fun p => (Json.obj p.1, p.2))
    | '[' :: cs =>
      match skipWs cs with
      | ']' :: rest => some (Json.arr [], rest)
      | other => (parseElems f other).map (fun p => (Json.arr p.1, p.2))
    | 't' :: 'r' :: 'u' :: 'e' :: cs => some (Json.bool true, cs)
    | 'f' :: 'a' :: 'l' :: 's' :: 'e' :: cs => some (Json.bool false, cs)
    | 'n' :: 'u' :: 'l' :: 'l' :: cs => some (Json.null, cs)
    | c :: cs => parseNum (c :: cs)

/-- Parse the nonempty field list of a JSON object, including the closing
brace. -/
def parseFields : Nat → List Char → Option (List (List Char × Json) × List Char)
  | 0, _ => none
  | f + 1, input =>
    match skipWs input with
    | '"' :: cs =>
      match parseStr cs with
      | none => none
      | some (key, rest) =>
        match skipWs rest with
        | ':' :: rest2 =>
          match parseVal f rest2 with
          | none => none
          | some (v, rest3) =>
            match skipWs rest3 with
            | ',' :: rest4 => (parseFields f rest4).map (fun p => ((key, v) :: p.1, p.2))
            | '\x7d' :: rest4 => some ([(key, v)], rest4)
            | _ => none
        | _ => none
    | _ => none

/-- Parse the nonempty element list of a JSON array, including the closing
bracket. -/
def parseElems : Nat → List Char → Option (List Json × List Char)
  | 0, _ => none
  | f + 1, input =>
    match parseVal f input with
    | none => none
    | some (v, rest) =>
      match skipWs rest with
      | ',' :: rest2 => (parseElems f rest2).map (fun p => (v :: p.1, p.2))
      | ']' :: rest2 => some ([v], rest2)
      | _ => none

end

/-- Modelled from the spec: parse a complete JSON document
(serde_json::from_str as used when a ToolUse block closes). -/
def parseJson (s : List Char) : Option Json :=
  match parseVal (s.length + 1) s with
  | some (v, rest) => if skipWs rest = [] then some v else none
  | none => none

/-- Provider stop reasons (provider::StopReason as exercised by the
service and its tests: EndTurn, ToolUse, plus other terminal reasons). -/
inductive StopReason where
  | endTurn
  | toolUse
  | maxTokens
deriving DecidableEq

/-- provider::TokenUsage for one call. -/
structure TokenUsage where
  input_tokens : Nat
  output_tokens : Nat
deriving DecidableEq

/-- provider::ContentBlock: one unit of a response, free text or a tool
invocation request. -/
inductive ContentBlock where
  | text (text : List Char)
  | toolUse (id name : List Char) (input : Json)

/-- provider::LLMResponse for a single provider call. -/
structure LLMResponse where
  id : List Char
  model : List Char
  content : List ContentBlock
  stop_reason : Option StopReason
  usage : TokenUsage

/-- Rust char::is_whitespace: the Unicode White_Space property, encoded
by its exact code-point set. -/
def rustIsWhitespace (c : Char) : Bool :=
  let n := c.toNat
  decide ((0x09 ≤ n ∧ n ≤ 0x0D) ∨ n = 0x20 ∨ n = 0x85 ∨ n = 0xA0 ∨ n = 0x1680 ∨
    (0x2000 ≤ n ∧ n ≤ 0x200A) ∨ n = 0x2028 ∨ n = 0x2029 ∨ n = 0x202F ∨ n = 0x205F ∨ n = 0x3000)

/-- Rust str::trim: drop leading and trailing whitespace. -/
def rustTrim (s : List Char) : List Char :=
  ((s.dropWhile rustIsWhitespace).reverse.dropWhile rustIsWhitespace).reverse

/-- One step of the accumulation in AgentService::extract_text_from_response
(src/brain/agent/service/types.rs, the loop body over response.content). -/
def extractStep (text : List Char) (block : ContentBlock) : List Char :=
  match block with
  | ContentBlock.text t =>
    if rustTrim t = [] then text
    else if text = [] then t
    else text ++ '\n' :: '\n' :: t
  | ContentBlock.toolUse _ _ _ => text

/-- AgentService::extract_text_from_response
(src/brain/agent/service/types.rs lines 133-150): fold over the response's
content blocks, keeping non-blank Text blocks joined by a blank line. -/
def extract_text_from_response (content : List ContentBlock) : List Char :=
  content.foldl extractStep []

/-- Whether a content block is a Text block. -/
def isTextBlock : ContentBlock → Bool
  | ContentBlock.text _ => true
  | ContentBlock.toolUse _ _ _ => false

/-- Spec-side companion for C9: the texts of the Text blocks that are not
empty nor whitespace-only, in response order. -/
def keptTexts (blocks : List ContentBlock) : List (List Char) :=
  blocks.filterMap (fun b =>
    match b with
    | ContentBlock.text t => if rustTrim t = [] then none else some t
    | ContentBlock.toolUse _ _ _ => none)

/-- Spec-side companion for C9: join strings with the two-newline
separator. -/
def joinSepNN : List (List Char) → List Char
  | [] => []
  | [t] => t
  | t :: ts => t ++ '\n' :: '\n' :: joinSepNN ts

/-- Concatenation of the separator-prefixed tail strings; helper for
relating the fold to joinSepNN. -/
def tailPartNN (ts : List (List Char)) : List Char :=
  (ts.map (fun t => '\n' :: '\n' :: t)).flatten

/-- Byte length of a string: the sum of the UTF-8 sizes of its chars
(Rust str::len). -/
def ulen (s : List Char) : Nat :=
  (s.map Char.utf8Size).sum

/-- Prefix of a char list covering exactly n bytes; none when n falls
inside a character or past the end (a Rust byte-slice panic). -/
def takeBytes : List Char → Nat → Option (List Char)
  | _, 0 => some []
  | [], Nat.succ _ => none
  | c :: cs, Nat.succ n =>
    if c.utf8Size ≤ n + 1 then (takeBytes cs (n + 1 - c.utf8Size)).map (fun l => c :: l)
    else none

/-- Drop exactly n leading bytes; none when n falls inside a character or
past the end. -/
def dropBytes : List Char → Nat → Option (List Char)
  | l, 0 => some l
  | [], Nat.succ _ => none
  | c :: cs, Nat.succ n =>
    if c.utf8Size ≤ n + 1 then dropBytes cs (n + 1 - c.utf8Size)
    else none

/-- Rust &text[a..b]: byte-range slice; none models the panic on a
non-char-boundary index. -/
def sliceBytes (text : List Char) (a b : Nat) : Option (List Char) :=
  match dropBytes text a with
  | none => none
  | some rest => takeBytes rest (b - a)

/-- Byte offset of the last newline in a string (Rust str::rfind). -/
def rfindNLAux : List Char → Nat → Option Nat → Option Nat
  | [], _, best => best
  | c :: cs, off, best =>
    rfindNLAux cs (off + c.utf8Size) (if c = '\n' then some off else best)

/-- Byte offset of the last newline, none if absent. -/
def rfindNL (s : List Char) : Option Nat :=
  rfindNLAux s 0 none

/-- The value of the usize expression end - start - 200 in release mode
(wrapping subtraction) when end - start = maxLen. -/
def thrUsize (maxLen : Nat) : Nat :=
  (maxLen + (2 ^ 64 - 200)) % 2 ^ 64

/-- The while loop of split_message (src/discord/handler.rs lines 26-40),
fuel-bounded; none models a panic (a byte slice off a char boundary). -/
def splitGo (text : List Char) (maxLen : Nat) : Nat → Nat → Option (List (List Char))
  | 0, _ => none
  | Nat.succ fuel, start =>
    if start < ulen text then
      let e := min (start + maxLen) (ulen text)
      let breakAt : Option Nat :=
        if e < ulen text then
          match sliceBytes text start e with
          | none => none
          | some seg =>
            match rfindNL seg with
            | some pos =>
              if thrUsize maxLen < pos then some (start + pos + 1) else some e
            | none => some e
        else some e
      match breakAt with
      | none => none
      | some b =>
        match sliceBytes text start b with
        | none => none
        | some chunk =>
          match splitGo text maxLen fuel b with
          | none => none
          | some chunks => some (chunk :: chunks)
    else some []

/-- split_message (src/discord/handler.rs lines 21-42).  Strings are char
lists; byte indices are explicit; none models a panic. -/
def split_message (text : List Char) (maxLen : Nat) : Option (List (List Char)) :=
  if ulen text ≤ maxLen then some [text]
  else splitGo text maxLen (ulen text + 1) 0

/-- provider::ContentDelta: the two stream delta kinds. -/
inductive ContentDelta where
  | textDelta (text : List Char)
  | inputJsonDelta (pjson : List Char)

/-- provider::StreamEvent: the six stream event kinds (role and
stop_sequence omitted; the reconstructor does not branch on them). -/
inductive StreamEvent where
  | messageStart (id model : List Char) (usage : TokenUsage)
  | contentBlockStart (index : Nat) (block : ContentBlock)
  | contentBlockDelta (index : Nat) (delta : ContentDelta)
  | contentBlockStop (index : Nat)
  | messageDelta (stop_reason : Option StopReason) (usage : TokenUsage)
  | messageStop

/-- Modelled from the spec: one per-index accumulation buffer of the
Stream Reconstructor — an open text buffer, an open tool-use buffer
holding unparsed JSON, or a finalized block. -/
inductive BlockBuf where
  | textBuf (acc : List Char)
  | toolBuf (id name : List Char) (jsonAcc : List Char)
  | closedBuf (block : ContentBlock)

/-- Modelled from the spec: the Stream Reconstructor's running state —
message id/model/usage captured at MessageStart, the index-keyed buffer
map, the captured stop reason, and the StreamingChunk texts emitted so
far. -/
structure ReconState where
  rid : List Char
  rmodel : List Char
  rusage : TokenUsage
  blocks : List (Nat × BlockBuf)
  stop_reason : Option StopReason
  chunks : List (List Char)

/-- Seed a buffer from the block shell declared at ContentBlockStart:
empty text or empty structured input, per the shell kind. -/
def seedBuf : ContentBlock → BlockBuf
  | ContentBlock.text _ => BlockBuf.textBuf []
  | ContentBlock.toolUse i n _ => BlockBuf.toolBuf i n []

/-- Apply one delta to one buffer: TextDelta appends to a text buffer,
InputJsonDelta appends (unparsed) to a tool buffer; a mismatched kind
leaves the buffer unchanged. -/
def applyDelta (d : ContentDelta) (b : BlockBuf) : BlockBuf :=
  match d, b with
  | ContentDelta.textDelta t, BlockBuf.textBuf acc => BlockBuf.textBuf (acc ++ t)
  | ContentDelta.inputJsonDelta j, BlockBuf.toolBuf i n acc => BlockBuf.toolBuf i n (acc ++ j)
  | _, b => b

/-- Finalize a buffer at ContentBlockStop: text closes as-is; a tool
buffer parses its accumulated JSON, an invalid accumulation closing with
an empty placeholder input (the spec's stated policy). -/
def finalizeBuf : BlockBuf → ContentBlock
  | BlockBuf.textBuf acc => ContentBlock.text acc
  | BlockBuf.toolBuf i n acc =>
    match parseJson acc with
    | some v => ContentBlock.toolUse i n v
    | none => ContentBlock.toolUse i n (Json.obj [])
  | BlockBuf.closedBuf b => b

/-- Update the buffer at index i in the buffer map; none when the index
was never opened by ContentBlockStart (a protocol violation). -/
def updateBuf (i : Nat) (f : BlockBuf → BlockBuf) :
    List (Nat × BlockBuf) → Option (List (Nat × BlockBuf))
  | [] => none
  | (j, b) :: rest =>
    if i = j then some ((j, f b) :: rest)
    else (updateBuf i f rest).map (fun l => (j, b) :: l)

/-- Insert one indexed buffer into an index-sorted list. -/
def insertByIdx (p : Nat × BlockBuf) : List (Nat × BlockBuf) → List (Nat × BlockBuf)
  | [] => [p]
  | q :: rest => if p.1 ≤ q.1 then p :: q :: rest else q :: insertByIdx p rest

/-- Sort the buffer map by block index (insertion sort). -/
def sortByIdx : List (Nat × BlockBuf) → List (Nat × BlockBuf)
  | [] => []
  | p :: rest => insertByIdx p (sortByIdx rest)

/-- Modelled from the spec: assemble the final Response at MessageStop
from the captured id/model/usage, the captured stop reason, and the
index-sorted finalized blocks. -/
def assembleResponse (st : ReconState) : LLMResponse :=
  { id := st.rid
    model := st.rmodel
    content := (sortByIdx st.blocks).map (fun p => finalizeBuf p.2)
    stop_reason := st.stop_reason
    usage := st.rusage }

/-- Modelled from the spec: the Stream Reconstructor's event fold.  A
stream that ends without MessageStop, or an event referencing an index
never opened, yields none (protocol violation).  The result pairs the
reconstructed Response with the emitted StreamingChunk texts in order. -/
def reconAux : List StreamEvent → ReconState → Option (LLMResponse × List (List Char))
  | [], _ => none
  | e :: rest, st =>
    match e with
    | StreamEvent.messageStart i m u =>
      reconAux rest { st with rid := i, rmodel := m, rusage := u }
    | StreamEvent.contentBlockStart i shell =>
      reconAux rest { st with blocks := st.blocks ++ [(i, seedBuf shell)] }
    | StreamEvent.contentBlockDelta i d =>
      match updateBuf i (applyDelta d) st.blocks with
      | none => none
      | some bs =>
        match d with
        | ContentDelta.textDelta t =>
          reconAux rest { st with blocks := bs, chunks := st.chunks ++ [t] }
        | ContentDelta.inputJsonDelta _ =>
          reconAux rest { st with blocks := bs }
    | StreamEvent.contentBlockStop i =>
      match updateBuf i (fun b => BlockBuf.closedBuf (finalizeBuf b)) st.blocks with
      | none => none
      | some bs => reconAux rest { st with blocks := bs }
    | StreamEvent.messageDelta sr _ =>
      reconAux rest { st with stop_reason := sr }
    | StreamEvent.messageStop => some (assembleResponse st, st.chunks)

/-- The reconstructor's initial state. -/
def initReconState : ReconState :=
  { rid := [], rmodel := [], rusage := ⟨0, 0⟩, blocks := [], stop_reason := none, chunks := [] }

/-- Modelled from the spec: stream_complete — run the Stream
Reconstructor over a finite event sequence from the initial state. -/
def stream_complete (events : List StreamEvent) : Option (LLMResponse × List (List Char)) :=
  reconAux events initReconState

/-- The well-formed event stream of a text-only response whose text
arrives as the given TextDelta fragments (the shape exercised by
test_stream_complete_text_only / test_streaming_chunks_emitted). -/
def mkTextEvents (frags : List (List Char)) : List StreamEvent :=
  StreamEvent.messageStart ("test-response-1".data) ("mock-model".data) ⟨10, 20⟩ ::
    StreamEvent.contentBlockStart 0 (ContentBlock.text []) ::
    (frags.map (fun f => StreamEvent.contentBlockDelta 0 (ContentDelta.textDelta f)) ++
      [StreamEvent.contentBlockStop 0,
       StreamEvent.messageDelta (some StopReason.endTurn) ⟨10, 20⟩,
       StreamEvent.messageStop])

/-- The JSON text of the tool input in the tool-use stream scenario. -/
def toolJsonTarget : List Char :=
  "\x7b\"message\":\"test\"\x7d".data

/-- The parsed structured input the tool-use scenario must produce. -/
def toolJsonParsed : Json :=
  Json.obj [("message".data, Json.str ("test".data))]

/-- The event stream of a response with one ToolUse block delivered as a
shell plus InputJsonDelta fragments (the shape exercised by
test_stream_complete_with_tool_use). -/
def mkToolEvents (frags : List (List Char)) : List StreamEvent :=
  StreamEvent.messageStart ("test-response-1".data) ("mock-model".data) ⟨10, 20⟩ ::
    StreamEvent.contentBlockStart 0
      (ContentBlock.toolUse ("tool-1".data) ("test_tool".data) (Json.obj [])) ::
    (frags.map (fun f => StreamEvent.contentBlockDelta 0 (ContentDelta.inputJsonDelta f)) ++
      [StreamEvent.contentBlockStop 0,
       StreamEvent.messageDelta (some StopReason.toolUse) ⟨10, 20⟩,
       StreamEvent.messageStop])

/-- Result of one tool execution (tools::ToolResult). -/
structure ToolResult where
  success : Bool
  message : List Char

/-- A registered tool as the loop sees it: its approval requirement and
its execution function (tools::Tool::requires_approval / execute). -/
structure ToolSpec where
  requiresApproval : Bool
  execute : Json → ToolResult

/-- Context message roles. -/
inductive Role where
  | user
  | assistant
  | tool
deriving DecidableEq

/-- One persisted conversation-context message.  Per the spec every
appended context message is durably persisted before the loop proceeds,
so the context list is also the persisted message list. -/
structure CtxMsg where
  role : Role
  content : List Char

/-- The progress events the tool loop emits around tool execution. -/
inductive LoopEvent where
  | toolStarted (name : List Char)
  | toolCompleted (name : List Char) (success : Bool)

/-- Modelled from the spec: the collaborators and configuration of one
send_message_with_tools run — the provider as a function from call index
to its response, the tool registry, the approval configuration, the
iteration cap (0 = unlimited), and the per-call pricing function. -/
structure LoopConfig where
  provider : Nat → LLMResponse
  registry : List Char → Option ToolSpec
  autoApprove : Bool
  approvalCb : Option (List Char → Json → Bool)
  maxToolIterations : Nat
  price : Nat → Nat → Nat

/-- Modelled from the spec: the Tool Loop Controller's running state —
the (persisted) context, the Usage Accountant's two figures (summed
usage for billing, most-recent-call input tokens for display), summed
per-call cost, the ExecuteTools iteration count, the provider call
index, the pending injected-message queue, the emitted progress events,
and the log of tools actually executed. -/
structure LoopState where
  ctx : List CtxMsg
  usageIn : Nat
  usageOut : Nat
  lastInput : Nat
  costUnits : Nat
  iters : Nat
  callIdx : Nat
  queue : List (List Char)
  events : List LoopEvent
  execLog : List (List Char)

/-- Whether a tool (by registry lookup) requires approval; a tool absent
from the registry is treated as requiring approval (fail-closed). -/
def toolRequiresApproval (cfg : LoopConfig) (name : List Char) : Bool :=
  match cfg.registry name with
  | some t => t.requiresApproval
  | none => true

/-- Modelled from the spec: the Approval Gate — auto-approve allows
unconditionally; else a tool declaring it needs no approval is allowed;
else the approval callback decides, its absence denying (fail-closed). -/
def approveTool (cfg : LoopConfig) (name : List Char) (inp : Json) : Bool :=
  if cfg.autoApprove then true
  else if toolRequiresApproval cfg name = false then true
  else
    match cfg.approvalCb with
    | some cb => cb name inp
    | none => false

/-- The tool-result context message recording an approval denial. -/
def denialMessage (name : List Char) : List Char :=
  ("Tool ".data) ++ name ++ (" execution denied by user".data)

/-- The tool-result context message for a registry-missing tool. -/
def notFoundMessage (name : List Char) : List Char :=
  ("Tool ".data) ++ name ++ (" not found".data)

/-- Modelled from the spec: process one ToolUse block — ask the Approval
Gate; on approval emit ToolStarted, execute (a registry-missing tool
becomes a failed tool result), emit ToolCompleted and append the tool
result as a tool context message; on denial append a denial tool-result
message instead of executing, with no events. -/
def execOneTool (cfg : LoopConfig) (st : LoopState) (name : List Char) (inp : Json) :
    LoopState :=
  if approveTool cfg name inp then
    match cfg.registry name with
    | none =>
      { st with
        ctx := st.ctx ++ [⟨Role.tool, notFoundMessage name⟩]
        events := st.events ++ [LoopEvent.toolStarted name, LoopEvent.toolCompleted name false] }
    | some t =>
      let r := t.execute inp
      { st with
        ctx := st.ctx ++ [⟨Role.tool, r.message⟩]
        events := st.events ++ [LoopEvent.toolStarted name, LoopEvent.toolCompleted name r.success]
        execLog := st.execLog ++ [name] }
  else
    { st with ctx := st.ctx ++ [⟨Role.tool, denialMessage name⟩] }

/-- Modelled from the spec: ExecuteTools — process every ToolUse block of
the response's content, in order, before the next provider call. -/
def execToolBlocks (cfg : LoopConfig) : List ContentBlock → LoopState → LoopState
  | [], st => st
  | ContentBlock.text _ :: rest, st => execToolBlocks cfg rest st
  | ContentBlock.toolUse _ n inp :: rest, st => execToolBlocks cfg rest (execOneTool cfg st n inp)

/-- Modelled from the spec: CheckInjectedMessage — poll the queue once at
the iteration boundary; a pending message is consumed (at-most-once) and
appended as a persisted user context message. -/
def checkInjectedMessage (st : LoopState) : LoopState :=
  match st.queue with
  | [] => st
  | m :: rest => { st with ctx := st.ctx ++ [⟨Role.user, m⟩], queue := rest }

/-- The final AgentResponse aggregate plus the final loop state (the
state carries the persisted context, queue, events and logs the
theorems inspect). -/
structure AgentResult where
  content : List Char
  stop_reason : Option StopReason
  usageIn : Nat
  usageOut : Nat
  context_tokens : Nat
  costUnits : Nat
  final : LoopState

/-- Assemble the final AgentResponse from the deciding response and the
loop state: text from Text blocks only, summed usage, last-call context
tokens, summed cost. -/
def mkAgentResult (resp : LLMResponse) (st : LoopState) : AgentResult :=
  { content := extract_text_from_response resp.content
    stop_reason := resp.stop_reason
    usageIn := st.usageIn
    usageOut := st.usageOut
    context_tokens := st.lastInput
    costUnits := st.costUnits
    final := st }

/-- Modelled from the spec: AwaitProviderResponse — invoke the provider
at the current call index, append the assistant's turn as a (persisted)
context message, and feed the Usage Accountant: add this call's usage to
the billing sums, record its input tokens as the display figure, add its
priced cost. -/
def stAssist (cfg : LoopConfig) (st : LoopState) : LoopState :=
  { st with
    ctx := st.ctx ++
      [⟨Role.assistant, extract_text_from_response (cfg.provider st.callIdx).content⟩]
    usageIn := st.usageIn + (cfg.provider st.callIdx).usage.input_tokens
    usageOut := st.usageOut + (cfg.provider st.callIdx).usage.output_tokens
    lastInput := (cfg.provider st.callIdx).usage.input_tokens
    costUnits := st.costUnits +
      cfg.price (cfg.provider st.callIdx).usage.input_tokens
        (cfg.provider st.callIdx).usage.output_tokens
    callIdx := st.callIdx + 1 }

/-- Modelled from the spec: ExecuteTools on top of AwaitProviderResponse —
process every ToolUse block of the current response in order, then count
one ExecuteTools iteration. -/
def stExec (cfg : LoopConfig) (st : LoopState) : LoopState :=
  let st2 := execToolBlocks cfg (cfg.provider st.callIdx).content (stAssist cfg st)
  { st2 with iters := st2.iters + 1 }

/-- Modelled from the spec: the Tool Loop Controller's state machine
(Start, AwaitProviderResponse, ExecuteTools, CheckInjectedMessage, Done),
fuel-bounded on the number of provider calls.  Each pass invokes the
provider, appends the assistant turn, feeds the Usage Accountant; a
non-tool-use stop reason reaches Done; otherwise all ToolUse blocks are
processed, the iteration cap (when non-zero) forces Done from the last
available response, and the injected-message queue is polled once before
looping back. -/
def runLoopAux (cfg : LoopConfig) : Nat → LoopState → Option AgentResult
  | 0, _ => none
  | Nat.succ fuel, st =>
    if (cfg.provider st.callIdx).stop_reason = some StopReason.toolUse then
      if cfg.maxToolIterations ≠ 0 ∧ cfg.maxToolIterations ≤ (stExec cfg st).iters then
        some (mkAgentResult (cfg.provider st.callIdx) (stExec cfg st))
      else runLoopAux cfg fuel (checkInjectedMessage (stExec cfg st))
    else some (mkAgentResult (cfg.provider st.callIdx) (stAssist cfg st))

/-- The loop's initial state: the user's message appended (persisted)
and the injected-message queue as configured. -/
def initLoopState (userMsg : List Char) (queue : List (List Char)) : LoopState :=
  { ctx := [⟨Role.user, userMsg⟩]
    usageIn := 0
    usageOut := 0
    lastInput := 0
    costUnits := 0
    iters := 0
    callIdx := 0
    queue := queue
    events := []
    execLog := [] }

/-- Modelled from the spec: send_message_with_tools — run the tool loop
for a new user message, with the given queue and fuel bound. -/
def send_message_with_tools (cfg : LoopConfig) (userMsg : List Char)
    (queue : List (List Char)) (fuel : Nat) : Option AgentResult :=
  runLoopAux cfg fuel (initLoopState userMsg queue)

/-- Sum of one usage figure over n provider calls starting at call a. -/
def sumUsageFrom (p : Nat → LLMResponse) (f : TokenUsage → Nat) (a n : Nat) : Nat :=
  ((List.range n).map (fun i => f (p (a + i)).usage)).sum

/-- The response the text-only stream scenario reconstructs. -/
def textRoundtripResp (frags : List (List Char)) : LLMResponse :=
  { id := "test-response-1".data
    model := "mock-model".data
    content := [ContentBlock.text frags.flatten]
    stop_reason := some StopReason.endTurn
    usage := ⟨10, 20⟩ }

/-- The response the tool-use stream scenario reconstructs, as a function
of the accumulated (still unparsed) JSON text. -/
def toolRunResp (j : List Char) : LLMResponse :=
  { id := "test-response-1".data
    model := "mock-model".data
    content := [finalizeBuf (BlockBuf.toolBuf ("tool-1".data) ("test_tool".data) j)]
    stop_reason := some StopReason.toolUse
    usage := ⟨10, 20⟩ }

/-- The tool registry of the service tests: just test_tool, which needs
no approval and always succeeds. -/
def testRegistry : List Char → Option ToolSpec :=
  fun n =>
    if n = ("test_tool".data) then
      some { requiresApproval := false
             execute := fun _ => { success := true
                                   message := "Tool executed successfully".data } }
    else none

/-- MockProviderWithTools, first call: text plus a test_tool ToolUse
block, stop reason ToolUse, usage (10,20). -/
def mockToolResp1 : LLMResponse :=
  { id := "test-response-1".data
    model := "mock-model".data
    content := [ContentBlock.text ("Using the test tool.".data),
      ContentBlock.toolUse ("tool-1".data) ("test_tool".data) toolJsonParsed]
    stop_reason := some StopReason.toolUse
    usage := ⟨10, 20⟩ }

/-- MockProviderWithTools, second and later calls: final text, stop
reason EndTurn, usage (15,25). -/
def mockToolResp2 : LLMResponse :=
  { id := "test-response-2".data
    model := "mock-model".data
    content := [ContentBlock.text ("Tool execution completed successfully.".data)]
    stop_reason := some StopReason.endTurn
    usage := ⟨15, 25⟩ }

/-- The two-call provider of MockProviderWithTools as a call-indexed
function. -/
def twoIterProvider : Nat → LLMResponse :=
  fun i => if i = 0 then mockToolResp1 else mockToolResp2

/-- Loop configuration mirroring the tool-execution tests: the two-call
provider, the test_tool registry, auto-approve on, unlimited
iterations. -/
def twoIterCfg : LoopConfig :=
  { provider := twoIterProvider
    registry := testRegistry
    autoApprove := true
    approvalCb := none
    maxToolIterations := 0
    price := fun a b => a + b }

/-- The user message of the tool-execution tests. -/
def userMsgTest : List Char :=
  "Use the test tool".data

/-- Default result used to destructure optional run results. -/
def emptyAgentResult : AgentResult :=
  { content := []
    stop_reason := none
    usageIn := 0
    usageOut := 0
    context_tokens := 0
    costUnits := 0
    final := initLoopState [] [] }

/-- The completed two-iteration run of the usage tests. -/
def twoIterResult : AgentResult :=
  (send_message_with_tools twoIterCfg userMsgTest [] 5).getD emptyAgentResult

/-- MockProvider: a text-only response, stop reason EndTurn, usage
(10,20). -/
def mockSingleResp : LLMResponse :=
  { id := "test-response-1".data
    model := "mock-model".data
    content := [ContentBlock.text ("This is a test response".data)]
    stop_reason := some StopReason.endTurn
    usage := ⟨10, 20⟩ }

/-- Loop configuration mirroring the no-tool tests: single-shot
provider, no tool use. -/
def singleCfg : LoopConfig :=
  { provider := fun _ => mockSingleResp
    registry := testRegistry
    autoApprove := true
    approvalCb := none
    maxToolIterations := 0
    price := fun a b => a + b }

/-- The completed single-call run of the no-tool tests. -/
def singleResult : AgentResult :=
  (send_message_with_tools singleCfg ("Hello".data) [] 2).getD emptyAgentResult

/-- The denial tool-result messages produced by one ExecuteTools pass
when every approval is refused: one per ToolUse block, in order. -/
def denialMsgs (blocks : List ContentBlock) : List CtxMsg :=
  blocks.filterMap (fun b =>
    match b with
    | ContentBlock.toolUse _ n _ => some ⟨Role.tool, denialMessage n⟩
    | ContentBlock.text _ => none)

/-- A provider that requests tool use on every call, with a cap of 3. -/
def alwaysToolCfg : LoopConfig :=
  { provider := fun _ => mockToolResp1
    registry := testRegistry
    autoApprove := true
    approvalCb := none
    maxToolIterations := 3
    price := fun a b => a + b }

/-- An approval callback that refuses every request. -/
def denyCb : List Char → Json → Bool :=
  fun _ _ => false

/-- A registry whose test_tool requires approval. -/
def denyRegistry : List Char → Option ToolSpec :=
  fun n =>
    if n = ("test_tool".data) then
      some { requiresApproval := true
             execute := fun _ => { success := true
                                   message := "Tool executed successfully".data } }
    else none

/-- The approval-denial scenario: auto-approve off, a refusing callback,
an approval-requiring tool, the two-call provider. -/
def denyCfg : LoopConfig :=
  { provider := twoIterProvider
    registry := denyRegistry
    autoApprove := false
    approvalCb := some denyCb
    maxToolIterations := 0
    price := fun a b => a + b }

/-- The completed run of the approval-denial scenario. -/
def denyResult : AgentResult :=
  (send_message_with_tools denyCfg userMsgTest [] 5).getD emptyAgentResult

/-- Whether a context message has the user role. -/
def isUserMsg (m : CtxMsg) : Bool :=
  match m.role with
  | Role.user => true
  | Role.assistant => false
  | Role.tool => false

/-- The completed run of the message-queue injection scenario. -/
def queueResult : AgentResult :=
  (send_message_with_tools twoIterCfg userMsgTest [("user follow-up".data)] 5).getD
    emptyAgentResult

theorem foldl_extractStep_filter (blocks : List ContentBlock) (acc : List Char) :
    blocks.foldl extractStep acc = (blocks.filter isTextBlock).foldl extractStep acc := by
  induction blocks generalizing acc with
  | nil => rfl
  | cons b rest ih =>
    cases b with
    | text t => simp [isTextBlock, List.filter_cons, ih]
    | toolUse i n inp => simp [isTextBlock, List.filter_cons, extractStep, ih]

theorem keptTexts_cons_tool (i n : List Char) (inp : Json) (rest : List ContentBlock) :
    keptTexts (ContentBlock.toolUse i n inp :: rest) = keptTexts rest := rfl

theorem keptTexts_cons_text_ws (t : List Char) (rest : List ContentBlock)
    (ht : rustTrim t = []) :
    keptTexts (ContentBlock.text t :: rest) = keptTexts rest := by
  simp [keptTexts, ht]

theorem keptTexts_cons_text (t : List Char) (rest : List ContentBlock)
    (ht : ¬rustTrim t = []) :
    keptTexts (ContentBlock.text t :: rest) = t :: keptTexts rest := by
  simp [keptTexts, ht]

theorem extractStep_tool (acc i n : List Char) (inp : Json) :
    extractStep acc (ContentBlock.toolUse i n inp) = acc := rfl

theorem extractStep_text_ws (acc t : List Char) (ht : rustTrim t = []) :
    extractStep acc (ContentBlock.text t) = acc := by
  simp [extractStep, ht]

theorem extractStep_text_nil (t : List Char) (ht : ¬rustTrim t = []) :
    extractStep [] (ContentBlock.text t) = t := by
  simp [extractStep, ht]

theorem extractStep_text_app (acc t : List Char) (ht : ¬rustTrim t = []) (ha : acc ≠ []) :
    extractStep acc (ContentBlock.text t) = acc ++ '\n' :: '\n' :: t := by
  simp [extractStep, ht, ha]

theorem tailPartNN_cons (t : List Char) (ts : List (List Char)) :
    tailPartNN (t :: ts) = '\n' :: '\n' :: (t ++ tailPartNN ts) := by
  simp [tailPartNN]

theorem joinSepNN_eq_head_append (t : List Char) (ts : List (List Char)) :
    joinSepNN (t :: ts) = t ++ tailPartNN ts := by
  induction ts generalizing t with
  | nil => simp [joinSepNN, tailPartNN]
  | cons u us ih =>
    rw [tailPartNN_cons]
    show t ++ '\n' :: '\n' :: joinSepNN (u :: us) = _
    rw [ih u]

theorem foldl_extractStep_of_ne_nil (blocks : List ContentBlock) (acc : List Char)
    (h : acc ≠ []) :
    blocks.foldl extractStep acc = acc ++ tailPartNN (keptTexts blocks) := by
  induction blocks generalizing acc with
  | nil => simp [keptTexts, tailPartNN]
  | cons b rest ih =>
    cases b with
    | toolUse i n inp =>
      rw [List.foldl_cons, extractStep_tool, keptTexts_cons_tool]
      exact ih acc h
    | text t =>
      by_cases ht : rustTrim t = []
      · rw [List.foldl_cons, extractStep_text_ws acc t ht, keptTexts_cons_text_ws t rest ht]
        exact ih acc h
      · have hne : acc ++ '\n' :: '\n' :: t ≠ [] := by simp
        rw [List.foldl_cons, extractStep_text_app acc t ht h, ih _ hne,
          keptTexts_cons_text t rest ht, tailPartNN_cons]
        simp

/-- Claim C9: extract_text_from_response keeps exactly the Text blocks
whose text is not whitespace-only and joins them, in response order,
with a blank-line separator; in particular a response of only
whitespace-only Text blocks yields the empty string. -/
theorem extract_text_joins_kept_texts (blocks : List ContentBlock) :
    extract_text_from_response blocks = joinSepNN (keptTexts blocks) := by
  unfold extract_text_from_response
  induction blocks with
  | nil => rfl
  | cons b rest ih =>
    cases b with
    | toolUse i n inp =>
      rw [List.foldl_cons, extractStep_tool, keptTexts_cons_tool]
      exact ih
    | text t =>
      by_cases ht : rustTrim t = []
      · rw [List.foldl_cons, extractStep_text_ws [] t ht, keptTexts_cons_text_ws t rest ht]
        exact ih
      · have htne : t ≠ [] := by
          intro he
          rw [he] at ht
          exact ht rfl
        rw [List.foldl_cons, extractStep_text_nil t ht,
          foldl_extractStep_of_ne_nil rest t htne,
          keptTexts_cons_text t rest ht, joinSepNN_eq_head_append]

/-- Claim C8: the rendered text of a response is extracted from its Text
blocks only — removing every ToolUse block, wherever it appears and
however many there are, leaves extract_text_from_response unchanged. -/
theorem extract_text_ignores_tool_use_blocks (blocks : List ContentBlock) :
    extract_text_from_response blocks = extract_text_from_response (blocks.filter isTextBlock) :=
  foldl_extractStep_filter blocks []

theorem reconAux_text_deltas (frags : List (List Char)) (rest : List StreamEvent)
    (i m : List Char) (u : TokenUsage) (acc : List Char) (sr : Option StopReason)
    (cs : List (List Char)) :
    reconAux
      (frags.map (fun f => StreamEvent.contentBlockDelta 0 (ContentDelta.textDelta f)) ++ rest)
      ⟨i, m, u, [(0, BlockBuf.textBuf acc)], sr, cs⟩ =
    reconAux rest ⟨i, m, u, [(0, BlockBuf.textBuf (acc ++ frags.flatten))], sr, cs ++ frags⟩ := by
  induction frags generalizing acc cs with
  | nil => simp
  | cons f fs ih =>
    simp only [List.map_cons, List.cons_append, reconAux, updateBuf, applyDelta]
    simp only [reduceIte, List.append_eq]
    rw [ih]
    simp [List.append_assoc]

theorem reconAux_json_deltas (frags : List (List Char)) (rest : List StreamEvent)
    (i m tid tname : List Char) (u : TokenUsage) (acc : List Char) (sr : Option StopReason)
    (cs : List (List Char)) :
    reconAux
      (frags.map (fun f => StreamEvent.contentBlockDelta 0 (ContentDelta.inputJsonDelta f)) ++
        rest)
      ⟨i, m, u, [(0, BlockBuf.toolBuf tid tname acc)], sr, cs⟩ =
    reconAux rest ⟨i, m, u, [(0, BlockBuf.toolBuf tid tname (acc ++ frags.flatten))], sr, cs⟩ := by
  induction frags generalizing acc with
  | nil => simp
  | cons f fs ih =>
    simp only [List.map_cons, List.cons_append, reconAux, updateBuf, applyDelta]
    simp only [reduceIte, List.append_eq]
    rw [ih]
    simp [List.append_assoc]

theorem stream_text_run (frags : List (List Char)) :
    stream_complete (mkTextEvents frags) = some (textRoundtripResp frags, frags) := by
  unfold stream_complete mkTextEvents initReconState
  simp only [reconAux, seedBuf, List.nil_append]
  rw [reconAux_text_deltas]
  simp [reconAux, updateBuf, finalizeBuf, assembleResponse, sortByIdx, insertByIdx,
    textRoundtripResp]

theorem stream_tool_run (frags : List (List Char)) :
    stream_complete (mkToolEvents frags) = some (toolRunResp frags.flatten, []) := by
  unfold stream_complete mkToolEvents initReconState
  simp only [reconAux, seedBuf, List.nil_append]
  rw [reconAux_json_deltas]
  simp [reconAux, updateBuf, assembleResponse, sortByIdx, insertByIdx, toolRunResp,
    finalizeBuf]

/-- Claim C3 (as amended): for every nonempty fragment sequence, the
reconstructed response of a text-only stream has exactly one Text block
holding the in-order concatenation of the TextDelta fragments, stop
reason EndTurn, and at least one StreamingChunk was emitted whose
concatenation is that same text. -/
theorem stream_text_roundtrip (frags : List (List Char)) (h : frags ≠ []) :
    ∃ r chunks, stream_complete (mkTextEvents frags) = some (r, chunks) ∧
      r.content = [ContentBlock.text frags.flatten] ∧
      r.stop_reason = some StopReason.endTurn ∧
      chunks ≠ [] ∧ chunks.flatten = frags.flatten :=
  ⟨textRoundtripResp frags, frags, stream_text_run frags, rfl, rfl, h, rfl⟩

/-- Claim C3 counterexample: the claim as stated quantifies over any
ordered sequence of TextDelta fragments, but with zero fragments the
reconstructor emits no StreamingChunk at all, so "emits at least one
StreamingChunk" fails for that stream. -/
theorem stream_text_no_chunk_without_delta :
    stream_complete (mkTextEvents []) = some (textRoundtripResp [], []) ∧
    ¬∃ r chunks, stream_complete (mkTextEvents []) = some (r, chunks) ∧ chunks ≠ [] := by
  have hrun := stream_text_run []
  refine ⟨hrun, ?_⟩
  rintro ⟨r, chunks, heq, hne⟩
  rw [hrun] at heq
  injection heq with heq2
  injection heq2 with heq3 heq4
  exact hne heq4.symm

/-- Claim C3 witness: a two-fragment instance of the amended round-trip
property. -/
theorem stream_text_roundtrip_witness :
    (("This is".data) :: (" a test".data) :: [] ≠ ([] : List (List Char))) ∧
    (∃ r chunks,
      stream_complete (mkTextEvents (("This is".data) :: (" a test".data) :: [])) =
        some (r, chunks) ∧
      r.content = [ContentBlock.text ((("This is".data) :: (" a test".data) :: []).flatten)] ∧
      r.stop_reason = some StopReason.endTurn ∧
      chunks ≠ [] ∧
      chunks.flatten = ((("This is".data) :: (" a test".data) :: []).flatten)) :=
  ⟨by decide, stream_text_roundtrip (("This is".data) :: (" a test".data) :: []) (by decide)⟩

/-- Claim C4: a ToolUse block delivered as a shell plus InputJsonDelta
fragments is reassembled as an unparsed string and parsed at
ContentBlockStop: for any fragmentation of the JSON text
(quote)message(quote):(quote)test(quote) in braces, the reconstructed
block is named test_tool with that parsed structured input. -/
theorem stream_tool_use_reconstructs (frags : List (List Char))
    (h : frags.flatten = toolJsonTarget) :
    ∃ r chunks, stream_complete (mkToolEvents frags) = some (r, chunks) ∧
      r.content =
        [ContentBlock.toolUse ("tool-1".data) ("test_tool".data) toolJsonParsed] ∧
      r.stop_reason = some StopReason.toolUse := by
  refine ⟨toolRunResp frags.flatten, [], stream_tool_run frags, ?_, rfl⟩
  rw [h]
  rfl

/-- Claim C4 witness: the two-fragment split of the tool-input JSON from
test_stream_complete_with_tool_use. -/
theorem stream_tool_use_reconstructs_witness :
    ((("\x7b\"mess".data) :: ("age\":\"test\"\x7d".data) :: []).flatten = toolJsonTarget) ∧
    (∃ r chunks,
      stream_complete (mkToolEvents (("\x7b\"mess".data) :: ("age\":\"test\"\x7d".data) :: [])) =
        some (r, chunks) ∧
      r.content =
        [ContentBlock.toolUse ("tool-1".data) ("test_tool".data) toolJsonParsed] ∧
      r.stop_reason = some StopReason.toolUse) :=
  ⟨by decide,
    stream_tool_use_reconstructs (("\x7b\"mess".data) :: ("age\":\"test\"\x7d".data) :: [])
      (by decide)⟩

/-- Claim C10: the claim fails on the code — split_message byte-slices at
start + max_len without checking char boundaries, so a multi-byte UTF-8
input panics (modelled as none): the two-char text "aé" (3 bytes) with
max_len 2 slices &text[0..2] inside the 2-byte é. -/
theorem split_message_panics_on_multibyte :
    split_message ('a' :: 'é' :: []) 2 = none := by rfl

theorem execOneTool_preserves (cfg : LoopConfig) (st : LoopState) (name : List Char)
    (inp : Json) :
    (execOneTool cfg st name inp).usageIn = st.usageIn ∧
    (execOneTool cfg st name inp).usageOut = st.usageOut ∧
    (execOneTool cfg st name inp).lastInput = st.lastInput ∧
    (execOneTool cfg st name inp).costUnits = st.costUnits ∧
    (execOneTool cfg st name inp).iters = st.iters ∧
    (execOneTool cfg st name inp).callIdx = st.callIdx ∧
    (execOneTool cfg st name inp).queue = st.queue := by
  unfold execOneTool
  split
  · split <;> exact ⟨rfl, rfl, rfl, rfl, rfl, rfl, rfl⟩
  · exact ⟨rfl, rfl, rfl, rfl, rfl, rfl, rfl⟩

theorem execToolBlocks_preserves (cfg : LoopConfig) (blocks : List ContentBlock) :
    ∀ st : LoopState,
      (execToolBlocks cfg blocks st).usageIn = st.usageIn ∧
      (execToolBlocks cfg blocks st).usageOut = st.usageOut ∧
      (execToolBlocks cfg blocks st).lastInput = st.lastInput ∧
      (execToolBlocks cfg blocks st).costUnits = st.costUnits ∧
      (execToolBlocks cfg blocks st).iters = st.iters ∧
      (execToolBlocks cfg blocks st).callIdx = st.callIdx ∧
      (execToolBlocks cfg blocks st).queue = st.queue := by
  induction blocks with
  | nil => exact fun st => ⟨rfl, rfl, rfl, rfl, rfl, rfl, rfl⟩
  | cons b rest ih =>
    intro st
    cases b with
    | text t => exact ih st
    | toolUse i n inp =>
      have h1 := execOneTool_preserves cfg st n inp
      have h2 := ih (execOneTool cfg st n inp)
      exact ⟨h2.1.trans h1.1, h2.2.1.trans h1.2.1, h2.2.2.1.trans h1.2.2.1,
        h2.2.2.2.1.trans h1.2.2.2.1, h2.2.2.2.2.1.trans h1.2.2.2.2.1,
        h2.2.2.2.2.2.1.trans h1.2.2.2.2.2.1, h2.2.2.2.2.2.2.trans h1.2.2.2.2.2.2⟩

theorem checkInjectedMessage_preserves (st : LoopState) :
    (checkInjectedMessage st).usageIn = st.usageIn ∧
    (checkInjectedMessage st).usageOut = st.usageOut ∧
    (checkInjectedMessage st).lastInput = st.lastInput ∧
    (checkInjectedMessage st).costUnits = st.costUnits ∧
    (checkInjectedMessage st).iters = st.iters ∧
    (checkInjectedMessage st).callIdx = st.callIdx ∧
    (checkInjectedMessage st).events = st.events ∧
    (checkInjectedMessage st).execLog = st.execLog := by
  unfold checkInjectedMessage
  split <;> exact ⟨rfl, rfl, rfl, rfl, rfl, rfl, rfl, rfl⟩

theorem sumUsageFrom_one (p : Nat → LLMResponse) (f : TokenUsage → Nat) (a : Nat) :
    sumUsageFrom p f a 1 = f (p a).usage := by
  simp [sumUsageFrom, List.range_succ]

theorem sumUsageFrom_step (p : Nat → LLMResponse) (f : TokenUsage → Nat) (a n : Nat) :
    sumUsageFrom p f a (n + 1) = sumUsageFrom p f a n + f (p (a + n)).usage := by
  simp only [sumUsageFrom, List.range_succ, List.map_append, List.sum_append,
    List.map_cons, List.map_nil, List.sum_cons, List.sum_nil]
  omega

theorem sumUsageFrom_succ_eq (p : Nat → LLMResponse) (f : TokenUsage → Nat) (a : Nat) :
    ∀ n, sumUsageFrom p f a (n + 1) = f (p a).usage + sumUsageFrom p f (a + 1) n := by
  intro n
  induction n with
  | zero => simp [sumUsageFrom, List.range_succ]
  | succ k ih =>
    rw [sumUsageFrom_step p f a (k + 1), ih, sumUsageFrom_step p f (a + 1) k]
    have h3 : a + (k + 1) = a + 1 + k := by omega
    rw [h3]
    omega

theorem stExec_callIdx (cfg : LoopConfig) (st : LoopState) :
    (stExec cfg st).callIdx = st.callIdx + 1 := by
  simp [stExec, execToolBlocks_preserves, stAssist]

theorem stExec_iters (cfg : LoopConfig) (st : LoopState) :
    (stExec cfg st).iters = st.iters + 1 := by
  simp [stExec, execToolBlocks_preserves, stAssist]

theorem stExec_usageIn (cfg : LoopConfig) (st : LoopState) :
    (stExec cfg st).usageIn = st.usageIn + (cfg.provider st.callIdx).usage.input_tokens := by
  simp [stExec, execToolBlocks_preserves, stAssist]

theorem stExec_usageOut (cfg : LoopConfig) (st : LoopState) :
    (stExec cfg st).usageOut = st.usageOut + (cfg.provider st.callIdx).usage.output_tokens := by
  simp [stExec, execToolBlocks_preserves, stAssist]

theorem stExec_lastInput (cfg : LoopConfig) (st : LoopState) :
    (stExec cfg st).lastInput = (cfg.provider st.callIdx).usage.input_tokens := by
  simp [stExec, execToolBlocks_preserves, stAssist]

theorem stExec_queue (cfg : LoopConfig) (st : LoopState) :
    (stExec cfg st).queue = st.queue := by
  simp [stExec, execToolBlocks_preserves, stAssist]

theorem runLoopAux_usage_inv (cfg : LoopConfig) :
    ∀ (fuel : Nat) (st : LoopState) (r : AgentResult),
      runLoopAux cfg fuel st = some r →
      ∃ n, 0 < n ∧ r.final.callIdx = st.callIdx + n ∧
        r.usageIn =
          st.usageIn + sumUsageFrom cfg.provider (fun w => w.input_tokens) st.callIdx n ∧
        r.usageOut =
          st.usageOut + sumUsageFrom cfg.provider (fun w => w.output_tokens) st.callIdx n ∧
        r.context_tokens = (cfg.provider (st.callIdx + n - 1)).usage.input_tokens := by
  intro fuel
  induction fuel with
  | zero =>
    intro st r h
    exact absurd h (by simp [runLoopAux])
  | succ fuel ih =>
    intro st r h
    simp only [runLoopAux] at h
    split at h
    · split at h
      · -- iteration cap reached: result built from the ExecuteTools state
        injection h with h
        subst h
        refine ⟨1, Nat.one_pos, ?_, ?_, ?_, ?_⟩
        · simp [mkAgentResult, stExec_callIdx]
        · simp [mkAgentResult, stExec_usageIn, sumUsageFrom_one]
        · simp [mkAgentResult, stExec_usageOut, sumUsageFrom_one]
        · simp [mkAgentResult, stExec_lastInput]
      · -- loop continues: apply the induction hypothesis
        obtain ⟨n, hn, hidx, hin, hout, hctx⟩ := ih _ r h
        refine ⟨n + 1, Nat.succ_pos n, ?_, ?_, ?_, ?_⟩
        · rw [hidx]
          simp only [checkInjectedMessage_preserves, stExec_callIdx]
          omega
        · rw [hin, sumUsageFrom_succ_eq]
          simp only [checkInjectedMessage_preserves, stExec_usageIn, stExec_callIdx]
          omega
        · rw [hout, sumUsageFrom_succ_eq]
          simp only [checkInjectedMessage_preserves, stExec_usageOut, stExec_callIdx]
          omega
        · rw [hctx]
          simp only [checkInjectedMessage_preserves, stExec_callIdx]
          congr 3
          omega
    · -- non-tool-use stop reason: result built from the provider-call state
      injection h with h
      subst h
      refine ⟨1, Nat.one_pos, ?_, ?_, ?_, ?_⟩ <;> simp [mkAgentResult, stAssist, sumUsageFrom_one]

/-- Claim C1: for every completed tool-loop run of n provider calls, the
final usage input and output token counts each equal the sum over all n
calls of that call's reported usage — accumulated, never reset
mid-loop. -/
theorem agent_usage_accumulates (cfg : LoopConfig) (u : List Char) (q : List (List Char))
    (fuel : Nat) (r : AgentResult)
    (h : send_message_with_tools cfg u q fuel = some r) :
    r.usageIn = sumUsageFrom cfg.provider (fun w => w.input_tokens) 0 r.final.callIdx ∧
    r.usageOut = sumUsageFrom cfg.provider (fun w => w.output_tokens) 0 r.final.callIdx := by
  obtain ⟨n, hn, hidx, hin, hout, hctx⟩ := runLoopAux_usage_inv cfg fuel _ r h
  have hidx0 : r.final.callIdx = n := by simpa [initLoopState] using hidx
  rw [hidx0]
  constructor
  · rw [hin]
    simp [initLoopState]
  · rw [hout]
    simp [initLoopState]

/-- Claim C1 witness: the two-iteration run with per-call usage (10,20)
then (15,25) accumulates usage input 25 and output 45. -/
theorem agent_usage_accumulates_witness :
    send_message_with_tools twoIterCfg userMsgTest [] 5 = some twoIterResult ∧
    twoIterResult.usageIn = 25 ∧ twoIterResult.usageOut = 45 := by
  have hrun : send_message_with_tools twoIterCfg userMsgTest [] 5 = some twoIterResult := rfl
  have h := agent_usage_accumulates twoIterCfg userMsgTest [] 5 twoIterResult hrun
  refine ⟨hrun, ?_, ?_⟩
  · rw [h.1]
    rfl
  · rw [h.2]
    rfl

/-- Claim C2: for every completed run, context_tokens equals the input
token count reported by the most recent provider call only — never a sum
— and on a single-call run it coincides with the accumulated usage input
count. -/
theorem agent_context_tokens_last_call (cfg : LoopConfig) (u : List Char)
    (q : List (List Char)) (fuel : Nat) (r : AgentResult)
    (h : send_message_with_tools cfg u q fuel = some r) :
    r.context_tokens = (cfg.provider (r.final.callIdx - 1)).usage.input_tokens ∧
    (r.final.callIdx = 1 → r.context_tokens = r.usageIn) := by
  obtain ⟨n, hn, hidx, hin, hout, hctx⟩ := runLoopAux_usage_inv cfg fuel _ r h
  have hidx0 : r.final.callIdx = n := by simpa [initLoopState] using hidx
  constructor
  · rw [hctx, hidx0]
    simp [initLoopState]
  · intro h1
    rw [hidx0] at h1
    subst h1
    rw [hctx, hin]
    simp [sumUsageFrom, initLoopState, List.range_succ]

/-- Claim C2 witness: the two-iteration run (inputs 10 then 15) displays
context_tokens 15 while billing 25, and the single-call run has
context_tokens equal to usage input tokens. -/
theorem agent_context_tokens_last_call_witness :
    send_message_with_tools twoIterCfg userMsgTest [] 5 = some twoIterResult ∧
    twoIterResult.context_tokens = 15 ∧ twoIterResult.usageIn = 25 ∧
    send_message_with_tools singleCfg ("Hello".data) [] 2 = some singleResult ∧
    singleResult.context_tokens = singleResult.usageIn := by
  have hrun2 : send_message_with_tools twoIterCfg userMsgTest [] 5 = some twoIterResult := rfl
  have hrun1 : send_message_with_tools singleCfg ("Hello".data) [] 2 = some singleResult := rfl
  have h2 := agent_context_tokens_last_call twoIterCfg userMsgTest [] 5 twoIterResult hrun2
  have h1 := agent_context_tokens_last_call singleCfg ("Hello".data) [] 2 singleResult hrun1
  refine ⟨hrun2, ?_, rfl, hrun1, h1.2 rfl⟩
  rw [h2.1]
  rfl

theorem runLoopAux_one_step (cfg : LoopConfig) (fuel : Nat) (st : LoopState) :
    runLoopAux cfg (fuel + 1) st =
      if (cfg.provider st.callIdx).stop_reason = some StopReason.toolUse then
        if cfg.maxToolIterations ≠ 0 ∧ cfg.maxToolIterations ≤ (stExec cfg st).iters then
          some (mkAgentResult (cfg.provider st.callIdx) (stExec cfg st))
        else runLoopAux cfg fuel (checkInjectedMessage (stExec cfg st))
      else some (mkAgentResult (cfg.provider st.callIdx) (stAssist cfg st)) := rfl

theorem runLoopAux_cap_run (cfg : LoopConfig)
    (hAll : ∀ i, (cfg.provider i).stop_reason = some StopReason.toolUse)
    (hcap : cfg.maxToolIterations ≠ 0) :
    ∀ (k : Nat) (st : LoopState), st.iters + k + 1 = cfg.maxToolIterations →
      ∃ r, runLoopAux cfg (k + 1) st = some r ∧
        r.final.iters = cfg.maxToolIterations ∧
        r.content = extract_text_from_response (cfg.provider (st.callIdx + k)).content ∧
        r.stop_reason = some StopReason.toolUse := by
  intro k
  induction k with
  | zero =>
    intro st hiter
    rw [runLoopAux_one_step, if_pos (hAll st.callIdx),
      if_pos ⟨hcap, by rw [stExec_iters]; omega⟩]
    refine ⟨mkAgentResult (cfg.provider st.callIdx) (stExec cfg st), rfl, ?_, ?_, ?_⟩
    · show (stExec cfg st).iters = cfg.maxToolIterations
      rw [stExec_iters]
      omega
    · show extract_text_from_response (cfg.provider st.callIdx).content = _
      rw [Nat.add_zero]
    · exact hAll st.callIdx
  | succ k ih =>
    intro st hiter
    obtain ⟨r, hrun, hiters, hcont, hstop⟩ :=
      ih (checkInjectedMessage (stExec cfg st))
        (by simp only [checkInjectedMessage_preserves, stExec_iters]; omega)
    refine ⟨r, ?_, hiters, ?_, hstop⟩
    · rw [runLoopAux_one_step, if_pos (hAll st.callIdx), if_neg ?_]
      · exact hrun
      · intro hc
        rw [stExec_iters] at hc
        omega
    · rw [hcont]
      have harith : (checkInjectedMessage (stExec cfg st)).callIdx + k =
          st.callIdx + (k + 1) := by
        simp only [checkInjectedMessage_preserves, stExec_callIdx]
        omega
      rw [harith]

theorem runLoopAux_capzero_stop (cfg : LoopConfig) (hcap : cfg.maxToolIterations = 0) :
    ∀ (fuel : Nat) (st : LoopState) (r : AgentResult),
      runLoopAux cfg fuel st = some r → r.stop_reason ≠ some StopReason.toolUse := by
  intro fuel
  induction fuel with
  | zero =>
    intro st r h
    exact absurd h (by simp [runLoopAux])
  | succ fuel ih =>
    intro st r h
    rw [runLoopAux_one_step] at h
    split at h
    · split at h
      · rename_i hcond
        exact absurd hcap hcond.1
      · exact ih _ r h
    · rename_i hstop
      injection h with h
      subst h
      simpa [mkAgentResult] using hstop

/-- Claim C5: a non-zero iteration cap N with an always-tool-use provider
reaches Done after exactly N (hence at most N) ExecuteTools iterations,
assembling the final response from the last available response content;
with cap 0 the loop only terminates on a non-tool-use stop reason. -/
theorem tool_loop_iteration_cap (cfg : LoopConfig) (u : List Char) (q : List (List Char)) :
    (0 < cfg.maxToolIterations →
      (∀ i, (cfg.provider i).stop_reason = some StopReason.toolUse) →
      ∃ r, send_message_with_tools cfg u q cfg.maxToolIterations = some r ∧
        r.final.iters = cfg.maxToolIterations ∧
        r.content =
          extract_text_from_response (cfg.provider (cfg.maxToolIterations - 1)).content) ∧
    (cfg.maxToolIterations = 0 →
      ∀ fuel r, send_message_with_tools cfg u q fuel = some r →
        r.stop_reason ≠ some StopReason.toolUse) := by
  constructor
  · intro hpos hAll
    obtain ⟨k, hk⟩ : ∃ k, cfg.maxToolIterations = k + 1 :=
      ⟨cfg.maxToolIterations - 1, by omega⟩
    obtain ⟨r, hrun, hiters, hcont, hstop⟩ :=
      runLoopAux_cap_run cfg hAll (by omega) k (initLoopState u q)
        (by simp only [initLoopState]; omega)
    refine ⟨r, ?_, hiters, ?_⟩
    · unfold send_message_with_tools
      rw [hk]
      exact hrun
    · rw [hcont, hk]
      have harith : (initLoopState u q).callIdx + k = k + 1 - 1 := by
        simp [initLoopState]
      rw [harith]
  · intro hcap fuel r h
    exact runLoopAux_capzero_stop cfg hcap fuel (initLoopState u q) r h

/-- Claim C5 witness: with cap 3 and a provider that always requests
tool use, the loop completes in exactly 3 tool iterations. -/
theorem tool_loop_iteration_cap_witness :
    0 < alwaysToolCfg.maxToolIterations ∧
    (∃ r, send_message_with_tools alwaysToolCfg userMsgTest []
        alwaysToolCfg.maxToolIterations = some r ∧
      r.final.iters = alwaysToolCfg.maxToolIterations ∧
      r.content = extract_text_from_response
        (alwaysToolCfg.provider (alwaysToolCfg.maxToolIterations - 1)).content) :=
  ⟨by decide,
    (tool_loop_iteration_cap alwaysToolCfg userMsgTest []).1 (by decide) (fun _ => rfl)⟩

theorem approveTool_denied (cfg : LoopConfig) (cb : List Char → Json → Bool)
    (hAuto : cfg.autoApprove = false) (hCb : cfg.approvalCb = some cb)
    (hDeny : ∀ name inp, cb name inp = false)
    (hReq : ∀ name t, cfg.registry name = some t → t.requiresApproval = true)
    (name : List Char) (inp : Json) :
    approveTool cfg name inp = false := by
  unfold approveTool toolRequiresApproval
  rw [hAuto, hCb]
  cases hreg : cfg.registry name with
  | none => simp [hDeny]
  | some t => simp [hReq name t hreg, hDeny]

theorem execOneTool_denied (cfg : LoopConfig) (st : LoopState) (name : List Char)
    (inp : Json) (hap : approveTool cfg name inp = false) :
    execOneTool cfg st name inp =
      { st with ctx := st.ctx ++ [⟨Role.tool, denialMessage name⟩] } := by
  unfold execOneTool
  rw [hap]
  simp

theorem execToolBlocks_denied (cfg : LoopConfig)
    (hap : ∀ name inp, approveTool cfg name inp = false) :
    ∀ (blocks : List ContentBlock) (st : LoopState),
      execToolBlocks cfg blocks st = { st with ctx := st.ctx ++ denialMsgs blocks } := by
  intro blocks
  induction blocks with
  | nil =>
    intro st
    simp [execToolBlocks, denialMsgs]
  | cons b rest ih =>
    intro st
    cases b with
    | text t =>
      rw [execToolBlocks, ih st]
      simp [denialMsgs]
    | toolUse i n inp =>
      rw [execToolBlocks, execOneTool_denied cfg st n inp (hap n inp), ih]
      simp [denialMsgs, List.append_assoc]

theorem stExec_events_denied (cfg : LoopConfig)
    (hap : ∀ name inp, approveTool cfg name inp = false) (st : LoopState) :
    (stExec cfg st).events = st.events := by
  unfold stExec
  rw [execToolBlocks_denied cfg hap]
  rfl

theorem stExec_execLog_denied (cfg : LoopConfig)
    (hap : ∀ name inp, approveTool cfg name inp = false) (st : LoopState) :
    (stExec cfg st).execLog = st.execLog := by
  unfold stExec
  rw [execToolBlocks_denied cfg hap]
  rfl

theorem stExec_ctx_denied (cfg : LoopConfig)
    (hap : ∀ name inp, approveTool cfg name inp = false) (st : LoopState) :
    (stExec cfg st).ctx =
      (st.ctx ++
        [⟨Role.assistant, extract_text_from_response (cfg.provider st.callIdx).content⟩]) ++
        denialMsgs (cfg.provider st.callIdx).content := by
  unfold stExec
  rw [execToolBlocks_denied cfg hap]
  rfl

theorem execOneTool_ctx_mono (cfg : LoopConfig) (st : LoopState) (name : List Char)
    (inp : Json) :
    ∃ suf, (execOneTool cfg st name inp).ctx = st.ctx ++ suf := by
  unfold execOneTool
  split
  · split
    · exact ⟨_, rfl⟩
    · exact ⟨_, rfl⟩
  · exact ⟨_, rfl⟩

theorem execToolBlocks_ctx_mono (cfg : LoopConfig) :
    ∀ (blocks : List ContentBlock) (st : LoopState),
      ∃ suf, (execToolBlocks cfg blocks st).ctx = st.ctx ++ suf := by
  intro blocks
  induction blocks with
  | nil => exact fun st => ⟨[], by simp [execToolBlocks]⟩
  | cons b rest ih =>
    intro st
    cases b with
    | text t =>
      obtain ⟨suf, hsuf⟩ := ih st
      exact ⟨suf, by rw [execToolBlocks]; exact hsuf⟩
    | toolUse i n inp =>
      obtain ⟨s1, hs1⟩ := execOneTool_ctx_mono cfg st n inp
      obtain ⟨s2, hs2⟩ := ih (execOneTool cfg st n inp)
      refine ⟨s1 ++ s2, ?_⟩
      rw [execToolBlocks, hs2, hs1, List.append_assoc]

theorem stExec_ctx_mono (cfg : LoopConfig) (st : LoopState) :
    ∃ suf, (stExec cfg st).ctx = st.ctx ++ suf := by
  obtain ⟨suf, hsuf⟩ :=
    execToolBlocks_ctx_mono cfg (cfg.provider st.callIdx).content (stAssist cfg st)
  refine ⟨[⟨Role.assistant,
    extract_text_from_response (cfg.provider st.callIdx).content⟩] ++ suf, ?_⟩
  show (execToolBlocks cfg (cfg.provider st.callIdx).content (stAssist cfg st)).ctx = _
  rw [hsuf]
  show (stAssist cfg st).ctx ++ suf = _
  simp [stAssist]

theorem checkInjected_ctx_mono (st : LoopState) :
    ∃ suf, (checkInjectedMessage st).ctx = st.ctx ++ suf := by
  unfold checkInjectedMessage
  split
  · exact ⟨[], by simp⟩
  · exact ⟨_, rfl⟩

theorem runLoopAux_ctx_mono (cfg : LoopConfig) :
    ∀ (fuel : Nat) (st : LoopState) (r : AgentResult),
      runLoopAux cfg fuel st = some r → ∃ suf, r.final.ctx = st.ctx ++ suf := by
  intro fuel
  induction fuel with
  | zero =>
    intro st r h
    exact absurd h (by simp [runLoopAux])
  | succ fuel ih =>
    intro st r h
    rw [runLoopAux_one_step] at h
    split at h
    · split at h
      · injection h with h
        subst h
        exact stExec_ctx_mono cfg st
      · obtain ⟨s3, hs3⟩ := ih _ r h
        obtain ⟨s2, hs2⟩ := checkInjected_ctx_mono (stExec cfg st)
        obtain ⟨s1, hs1⟩ := stExec_ctx_mono cfg st
        refine ⟨s1 ++ s2 ++ s3, ?_⟩
        rw [hs3, hs2, hs1]
        simp [List.append_assoc]
    · injection h with h
      subst h
      exact ⟨_, rfl⟩

theorem mem_denialMsgs (blocks : List ContentBlock) (tid name : List Char) (inp : Json)
    (h : ContentBlock.toolUse tid name inp ∈ blocks) :
    CtxMsg.mk Role.tool (denialMessage name) ∈ denialMsgs blocks := by
  unfold denialMsgs
  exact List.mem_filterMap.2 ⟨_, h, rfl⟩

theorem checkInjected_ctx_mem (st : LoopState) (m : CtxMsg) (h : m ∈ st.ctx) :
    m ∈ (checkInjectedMessage st).ctx := by
  obtain ⟨suf, hsuf⟩ := checkInjected_ctx_mono st
  rw [hsuf]
  exact List.mem_append_left suf h

theorem runLoopAux_denied_inv (cfg : LoopConfig)
    (hap : ∀ name inp, approveTool cfg name inp = false) :
    ∀ (fuel : Nat) (st : LoopState) (r : AgentResult),
      runLoopAux cfg fuel st = some r →
      r.final.events = st.events ∧ r.final.execLog = st.execLog ∧
      ∀ i, st.callIdx ≤ i → i < r.final.callIdx →
        (cfg.provider i).stop_reason = some StopReason.toolUse →
        ∀ tid name inp, ContentBlock.toolUse tid name inp ∈ (cfg.provider i).content →
          CtxMsg.mk Role.tool (denialMessage name) ∈ r.final.ctx := by
  intro fuel
  induction fuel with
  | zero =>
    intro st r h
    exact absurd h (by simp [runLoopAux])
  | succ fuel ih =>
    intro st r h
    rw [runLoopAux_one_step] at h
    split at h
    · rename_i hstop0
      split at h
      · -- cap exit from the ExecuteTools state
        injection h with h
        subst h
        refine ⟨stExec_events_denied cfg hap st, stExec_execLog_denied cfg hap st, ?_⟩
        intro i hle hlt hstop tid name inp hmem
        have hidx : (mkAgentResult (cfg.provider st.callIdx) (stExec cfg st)).final.callIdx =
            st.callIdx + 1 := stExec_callIdx cfg st
        have hieq : i = st.callIdx := by
          rw [hidx] at hlt
          omega
        subst hieq
        show CtxMsg.mk Role.tool (denialMessage name) ∈ (stExec cfg st).ctx
        rw [stExec_ctx_denied cfg hap st]
        exact List.mem_append_right _ (mem_denialMsgs _ tid name inp hmem)
      · -- loop continues
        obtain ⟨he, hl, hc⟩ := ih _ r h
        have hev : r.final.events = st.events := by
          rw [he, (checkInjectedMessage_preserves (stExec cfg st)).2.2.2.2.2.2.1, stExec_events_denied cfg hap]
        have hlg : r.final.execLog = st.execLog := by
          rw [hl, (checkInjectedMessage_preserves (stExec cfg st)).2.2.2.2.2.2.2, stExec_execLog_denied cfg hap]
        refine ⟨hev, hlg, ?_⟩
        intro i hle hlt hstop tid name inp hmem
        by_cases hi : st.callIdx + 1 ≤ i
        · refine hc i ?_ hlt hstop tid name inp hmem
          rw [(checkInjectedMessage_preserves (stExec cfg st)).2.2.2.2.2.1, stExec_callIdx]
          exact hi
        · have hieq : i = st.callIdx := by omega
          subst hieq
          have hin1 : CtxMsg.mk Role.tool (denialMessage name) ∈ (stExec cfg st).ctx := by
            rw [stExec_ctx_denied cfg hap st]
            exact List.mem_append_right _ (mem_denialMsgs _ tid name inp hmem)
          have hin2 := checkInjected_ctx_mem (stExec cfg st) _ hin1
          obtain ⟨suf, hsuf⟩ := runLoopAux_ctx_mono cfg fuel _ r h
          rw [hsuf]
          exact List.mem_append_left suf hin2
    · rename_i hstop0
      injection h with h
      subst h
      refine ⟨rfl, rfl, ?_⟩
      intro i hle hlt hstop tid name inp hmem
      have hieq : i = st.callIdx := by
        have : (mkAgentResult (cfg.provider st.callIdx) (stAssist cfg st)).final.callIdx =
            st.callIdx + 1 := rfl
        rw [this] at hlt
        omega
      subst hieq
      exact absurd hstop hstop0

/-- Claim C6: in every completed run with auto-approve off, an approval
callback that always answers false, and every registered tool declaring
it requires approval, no tool is executed (the execution log stays
empty), no ToolStarted or ToolCompleted progress event is emitted, and
for every ToolUse block of every tool-use response processed by the loop
a denial tool-result context message is appended. -/
theorem denied_tool_not_executed (cfg : LoopConfig) (cb : List Char → Json → Bool)
    (u : List Char) (q : List (List Char)) (fuel : Nat) (r : AgentResult)
    (hAuto : cfg.autoApprove = false) (hCb : cfg.approvalCb = some cb)
    (hDeny : ∀ name inp, cb name inp = false)
    (hReq : ∀ name t, cfg.registry name = some t → t.requiresApproval = true)
    (h : send_message_with_tools cfg u q fuel = some r) :
    r.final.execLog = [] ∧ r.final.events = [] ∧
    ∀ i, i < r.final.callIdx →
      (cfg.provider i).stop_reason = some StopReason.toolUse →
      ∀ tid name inp, ContentBlock.toolUse tid name inp ∈ (cfg.provider i).content →
        CtxMsg.mk Role.tool (denialMessage name) ∈ r.final.ctx := by
  have hap : ∀ name inp, approveTool cfg name inp = false :=
    approveTool_denied cfg cb hAuto hCb hDeny hReq
  obtain ⟨he, hl, hc⟩ := runLoopAux_denied_inv cfg hap fuel (initLoopState u q) r h
  refine ⟨hl, he, ?_⟩
  intro i hlt hstop tid name inp hmem
  exact hc i (Nat.zero_le i) hlt hstop tid name inp hmem

/-- Claim C6 witness: the concrete denial run — the tool never executes,
no progress event fires, and the denial message is persisted. -/
theorem denied_tool_not_executed_witness :
    denyCfg.autoApprove = false ∧ denyCfg.approvalCb = some denyCb ∧
    send_message_with_tools denyCfg userMsgTest [] 5 = some denyResult ∧
    denyResult.final.execLog = [] ∧ denyResult.final.events = [] ∧
    CtxMsg.mk Role.tool (denialMessage ("test_tool".data)) ∈ denyResult.final.ctx := by
  have hrun : send_message_with_tools denyCfg userMsgTest [] 5 = some denyResult := rfl
  have hReq : ∀ name t, denyCfg.registry name = some t → t.requiresApproval = true := by
    intro name t ht
    simp only [denyCfg, denyRegistry] at ht
    by_cases hn : name = ("test_tool".data)
    · rw [if_pos hn] at ht
      injection ht with ht
      rw [← ht]
    · rw [if_neg hn] at ht
      exact absurd ht (by simp)
  have h := denied_tool_not_executed denyCfg denyCb userMsgTest [] 5 denyResult rfl rfl
    (fun _ _ => rfl) hReq hrun
  refine ⟨rfl, rfl, hrun, h.1, h.2.1, ?_⟩
  refine h.2.2 0 (by decide) rfl ("tool-1".data) ("test_tool".data) toolJsonParsed ?_
  show ContentBlock.toolUse _ _ _ ∈ mockToolResp1.content
  exact List.mem_cons_of_mem _ (List.mem_cons_self _ _)

theorem execOneTool_userFilter (cfg : LoopConfig) (st : LoopState) (name : List Char)
    (inp : Json) :
    (execOneTool cfg st name inp).ctx.filter isUserMsg = st.ctx.filter isUserMsg := by
  unfold execOneTool
  split
  · split <;> simp [isUserMsg]
  · simp [isUserMsg]

theorem execToolBlocks_userFilter (cfg : LoopConfig) :
    ∀ (blocks : List ContentBlock) (st : LoopState),
      (execToolBlocks cfg blocks st).ctx.filter isUserMsg = st.ctx.filter isUserMsg := by
  intro blocks
  induction blocks with
  | nil => exact fun st => rfl
  | cons b rest ih =>
    intro st
    cases b with
    | text t =>
      rw [execToolBlocks]
      exact ih st
    | toolUse i n inp =>
      rw [execToolBlocks, ih, execOneTool_userFilter]

theorem stExec_userFilter (cfg : LoopConfig) (st : LoopState) :
    (stExec cfg st).ctx.filter isUserMsg = st.ctx.filter isUserMsg := by
  show (execToolBlocks cfg (cfg.provider st.callIdx).content
    (stAssist cfg st)).ctx.filter isUserMsg = _
  rw [execToolBlocks_userFilter]
  simp [stAssist, isUserMsg]

theorem checkInjected_nil_queue (st : LoopState) (h : st.queue = []) :
    checkInjectedMessage st = st := by
  unfold checkInjectedMessage
  rw [h]

theorem checkInjected_cons_queue (st : LoopState) (m : List Char) (rest : List (List Char))
    (h : st.queue = m :: rest) :
    checkInjectedMessage st =
      { st with ctx := st.ctx ++ [⟨Role.user, m⟩], queue := rest } := by
  unfold checkInjectedMessage
  rw [h]

theorem runLoopAux_queue_inv (cfg : LoopConfig) :
    ∀ (fuel : Nat) (st : LoopState) (r : AgentResult),
      runLoopAux cfg fuel st = some r →
      ∃ k, r.final.queue = st.queue.drop k ∧
        r.final.ctx.filter isUserMsg =
          st.ctx.filter isUserMsg ++
            ((st.queue.take k).map (fun m => CtxMsg.mk Role.user m)) ∧
        (st.queue ≠ [] → k = 0 → r.final.callIdx = st.callIdx + 1) := by
  intro fuel
  induction fuel with
  | zero =>
    intro st r h
    exact absurd h (by simp [runLoopAux])
  | succ fuel ih =>
    intro st r h
    rw [runLoopAux_one_step] at h
    split at h
    · split at h
      · -- cap exit
        injection h with h
        subst h
        refine ⟨0, ?_, ?_, fun _ _ => stExec_callIdx cfg st⟩
        · show (stExec cfg st).queue = st.queue.drop 0
          rw [stExec_queue, List.drop_zero]
        · show (stExec cfg st).ctx.filter isUserMsg = _
          rw [stExec_userFilter]
          simp
      · -- loop continues
        obtain ⟨k, hq, hctx, hcall⟩ := ih _ r h
        cases hQ : st.queue with
        | nil =>
          have hS : checkInjectedMessage (stExec cfg st) = stExec cfg st :=
            checkInjected_nil_queue _ ((stExec_queue cfg st).trans hQ)
          rw [hS] at hq hctx
          refine ⟨k, ?_, ?_, ?_⟩
          · rw [hq, stExec_queue, hQ]
          · rw [hctx, stExec_userFilter, stExec_queue, hQ]
          · intro hne
            exact absurd rfl hne
        | cons m rest =>
          have hS : checkInjectedMessage (stExec cfg st) =
              { stExec cfg st with
                ctx := (stExec cfg st).ctx ++ [⟨Role.user, m⟩], queue := rest } :=
            checkInjected_cons_queue _ m rest ((stExec_queue cfg st).trans hQ)
          rw [hS] at hq hctx
          refine ⟨k + 1, ?_, ?_, ?_⟩
          · rw [hq]
            rfl
          · rw [hctx]
            simp [stExec_userFilter, isUserMsg, List.take_succ_cons, List.filter_append]
          · intro _ hk
            exact absurd hk (Nat.succ_ne_zero k)
    · -- non-tool-use exit
      injection h with h
      subst h
      refine ⟨0, ?_, ?_, fun _ _ => rfl⟩
      · show (stAssist cfg st).queue = st.queue.drop 0
        rw [List.drop_zero]
        rfl
      · show (stAssist cfg st).ctx.filter isUserMsg = _
        simp [stAssist, isUserMsg]

/-- Claim C7: in every completed run that starts with exactly one queued
message, the message is consumed at most once — afterwards either it was
never polled (single provider call, queue intact, only the original user
message persisted) or it was consumed exactly once and persisted as its
own user-role message after the original; as soon as the loop passes an
iteration boundary (two or more provider calls) the queue is empty and
both user messages are persisted, in order. -/
theorem queued_message_injected_once (cfg : LoopConfig) (u qMsg : List Char) (fuel : Nat)
    (r : AgentResult) (h : send_message_with_tools cfg u [qMsg] fuel = some r) :
    ((r.final.queue = [qMsg] ∧
        (r.final.ctx.filter isUserMsg).map CtxMsg.content = [u]) ∨
      (r.final.queue = [] ∧
        (r.final.ctx.filter isUserMsg).map CtxMsg.content = [u, qMsg])) ∧
    (2 ≤ r.final.callIdx →
      r.final.queue = [] ∧
      (r.final.ctx.filter isUserMsg).map CtxMsg.content = [u, qMsg]) := by
  obtain ⟨k, hq, hctx, hcall⟩ := runLoopAux_queue_inv cfg fuel (initLoopState u [qMsg]) r h
  have hinit : (initLoopState u [qMsg]).ctx.filter isUserMsg = [⟨Role.user, u⟩] := by
    simp [initLoopState, isUserMsg]
  cases k with
  | zero =>
    have hq0 : r.final.queue = [qMsg] := hq
    have hctx0 : (r.final.ctx.filter isUserMsg).map CtxMsg.content = [u] := by
      rw [hctx, hinit]
      rfl
    have hcall0 : r.final.callIdx = 1 := hcall (by simp [initLoopState]) rfl
    refine ⟨Or.inl ⟨hq0, hctx0⟩, ?_⟩
    intro h2
    rw [hcall0] at h2
    omega
  | succ k =>
    have hq1 : r.final.queue = [] := by
      rw [hq]
      show List.drop (k + 1) [qMsg] = []
      simp
    have hctx1 : (r.final.ctx.filter isUserMsg).map CtxMsg.content = [u, qMsg] := by
      rw [hctx, hinit]
      show List.map CtxMsg.content ([⟨Role.user, u⟩] ++
        List.map (fun m => CtxMsg.mk Role.user m) (List.take (k + 1) [qMsg])) = [u, qMsg]
      simp
    exact ⟨Or.inr ⟨hq1, hctx1⟩, fun _ => ⟨hq1, hctx1⟩⟩

/-- Claim C7 witness: the concrete two-iteration run with queued message
"user follow-up" — the queue is drained and both user messages are
persisted, in order. -/
theorem queued_message_injected_once_witness :
    send_message_with_tools twoIterCfg userMsgTest [("user follow-up".data)] 5 =
      some queueResult ∧
    queueResult.final.queue = [] ∧
    (queueResult.final.ctx.filter isUserMsg).map CtxMsg.content =
      [userMsgTest, ("user follow-up".data)] := by
  have hrun : send_message_with_tools twoIterCfg userMsgTest [("user follow-up".data)] 5 =
      some queueResult := rfl
  have h := queued_message_injected_once twoIterCfg userMsgTest ("user follow-up".data) 5
    queueResult hrun
  exact ⟨hrun, (h.2 (by decide)).1, (h.2 (by decide)).2⟩

end OpenCrab
